import Mathlib

/-!
Verification of the `much` multi-user chat server ("conference hall") against
its specification.  The Rust sources are shallowly embedded: the shared world
store (`src/src/world/state.rs`), the message model (`src/src/world/message.rs`),
the command layer (`src/src/world/command.rs`, `src/src/game/command.rs`) and the
login prompt loop (`src/src/lib.rs`) become pure Lean functions; panics
(`assert!`, `.expect`) and fallible sends are modelled in `Except`/`Option`.
-/

namespace Much

/-- PersonId (src/src/world/person.rs line 5): `pub type PersonId = u64`.
Modelled as Nat: ids are produced by `next_id += 1` per registration, so a u64
overflow would require 2^64 successful registrations, each of which inserts a
record into an in-memory table; moreover the checked-arithmetic build panics
(fails the registration) at the overflow rather than wrapping. -/
abbrev PersonId := Nat

/-- Modelled from the spec: RoomId comes from `src/world/room.rs`, which is not
among the staged source files.  The spec (section 3) only requires rooms to be
identified by an id, with one default room existing from the start. -/
abbrev RoomId := Nat

/-- Modelled from the spec: INITIAL_LOC, the id of the single default ("initial")
room, from the missing `src/world/room.rs`.  The spec (sections 1 and 3) says one
initial room exists by default and newly authenticated persons are assigned to it. -/
def INITIAL_LOC : RoomId := 0

/-- Connection (state.rs lines 255-261): transport-tagged descriptor.  The
SocketAddr of a TCP peer and the HTTP session id are modelled as strings. -/
inductive Connection where
  | TCP (addr : String)
  | HTTP (session : String)
  deriving DecidableEq, Repr

/-- Person (person.rs lines 11-18): a logged-in session. -/
structure Person where
  id : PersonId
  name : String
  loc : RoomId
  conn : Connection
  deriving DecidableEq, Repr

/-- PersonRecord (person.rs lines 32-43): the stored identity. -/
structure PersonRecord where
  id : PersonId
  name : String
  loc : RoomId
  salt : String
  password : String
  deriving DecidableEq, Repr

/-- Person::new (person.rs lines 21-28). -/
def Person.new (p : PersonRecord) (conn : Connection) : Person :=
  { id := p.id, name := p.name, loc := p.loc, conn := conn }

/-- Message (message.rs lines 6-23).  Note: the enum in the staged
`src/src/world/message.rs` has exactly these three variants; there is no
Logout variant, although `state.rs` line 157 and `lib.rs` line 471 both
mention `Message::Logout` (see claim C8). -/
inductive Message where
  | Arrive (id : PersonId) (name : String) (loc : RoomId)
  | Depart (id : PersonId) (name : String) (loc : RoomId)
  | Say (speaker : PersonId) (speaker_name : String) (loc : RoomId) (text : String)
  deriving DecidableEq, Repr

/-- Message::render (message.rs lines 26-40): per-recipient text. -/
def Message.render (m : Message) (receiver : PersonId) : String :=
  match m with
  | .Arrive id name _loc => if id = receiver then "" else name ++ " arrived."
  | .Depart id name _loc => if id = receiver then "" else name ++ " left."
  | .Say speaker speaker_name _loc text =>
      if speaker = receiver then "You say, " ++ "'" ++ text ++ "'"
      else speaker_name ++ " says, " ++ "'" ++ text ++ "'"

/-- Model of Rust str::trim (called in Command::parse and in prompt): drop
leading and trailing whitespace characters.  Defined over the character list
so that it evaluates on concrete inputs. -/
def trim (s : String) : String :=
  ⟨((s.data.dropWhile Char.isWhitespace).reverse.dropWhile Char.isWhitespace).reverse⟩

/-- Command (world/command.rs lines 13-18). -/
inductive Command where
  | Logout
  | Say (text : String)
  | Shutdown
  deriving DecidableEq, Repr

/-- Command::parse (world/command.rs lines 38-50): `Result<Command, _>` is
`Except String Command`; every branch returns Ok. -/
def Command.parse (s : String) : Except String Command :=
  let s := trim s
  if s = "shutdown" then .ok .Shutdown
  else if s = "logout" then .ok .Logout
  else .ok (.Say s)

namespace Game

/-- Command of the vestigial game module (game/command.rs lines 14-18); the
crate roots (`lib.rs`, `main.rs`) declare only `mod world`, never `mod game`,
so this variant is not part of the compiled program. -/
inductive Command where
  | Say (text : String)
  | Shutdown
  deriving DecidableEq, Repr

/-- Command::parse of the game module (game/command.rs lines 38-48): it has no
logout production at all. -/
def Command.parse (s : String) : Except String Command :=
  let s := trim s
  if s = "shutdown" then .ok .Shutdown
  else .ok (.Say s)

end Game

/-- Association-list model of std HashMap with unique keys: lookup finds the
first binding, insert replaces an existing binding in place (or appends),
erase removes the binding. -/
abbrev Map (α β : Type) := List (α × β)

variable {α β : Type} [DecidableEq α]

def Map.lookup (k : α) : Map α β → Option β
  | [] => none
  | (k', v) :: rest => if k' = k then some v else Map.lookup k rest

def Map.insert (k : α) (v : β) : Map α β → Map α β
  | [] => [(k, v)]
  | (k', v') :: rest => if k' = k then (k, v) :: rest else (k', v') :: Map.insert k v rest

def Map.erase (k : α) : Map α β → Map α β
  | [] => []
  | (k', v') :: rest => if k' = k then rest else (k', v') :: Map.erase k rest

def Map.keys (m : Map α β) : List α := m.map Prod.fst

/-- Model of one tokio mpsc unbounded channel as its sender half sees it
(state.rs line 263): `live` records whether the receiving end still exists,
`msgs` the FIFO contents enqueued so far. -/
structure Queue where
  live : Bool
  msgs : List Message
  deriving DecidableEq, Repr

/-- UnboundedSender::send: fails exactly when the receiver was dropped. -/
def Queue.send (q : Queue) (m : Message) : Except Unit Queue :=
  if q.live then .ok { q with msgs := q.msgs ++ [m] } else .error ()

/-- A fresh queue as made by mpsc::unbounded_channel (lib.rs line 202). -/
def Queue.fresh : Queue := { live := true, msgs := [] }

/-- HashSet::remove on a set of Person values. -/
def setRemove (p : Person) (s : List Person) : List Person :=
  s.filter fun q => decide (q ≠ p)

/-- HashSet::insert on a set of Person values (no-op when already present). -/
def setInsert (p : Person) (s : List Person) : List Person :=
  if p ∈ s then s else s ++ [p]

/-- State (state.rs lines 16-39): the global shared world store.  The argon2
`password_config` field is configuration for the external hashing crate and
carries no verifiable state; it is omitted. -/
structure State where
  next_id : PersonId
  people : Map PersonId PersonRecord
  names : Map String PersonId
  rooms : Map RoomId (List Person)
  peers : Map PersonId Connection
  queues : Map PersonId Queue
  deriving DecidableEq, Repr

/-- State::new (state.rs lines 42-55): one initial room, everything else empty. -/
def State.new : State :=
  { next_id := 0, people := [], names := [], rooms := [(INITIAL_LOC, [])],
    peers := [], queues := [] }

/-- Model of argon2::hash_encoded (external crate, called at state.rs lines
85-87): an abstract encoding of salt and password; no claim depends on the
actual hash text. -/
def hash_encoded (password salt : String) : String :=
  "argon2$" ++ salt ++ "$" ++ password

/-- State::fresh_id (state.rs lines 63-67). -/
def State.fresh_id (s : State) : PersonId × State :=
  (s.next_id, { s with next_id := s.next_id + 1 })

/-- State::new_person (state.rs lines 69-100).  The random salt drawn from
rand::thread_rng is an explicit input; the
`assert!(!self.names.contains_key(name))` panic on a taken name (the check
runs after fresh_id, so the match mirrors that order) is the error case of
the Except. -/
def State.new_person (s : State) (salt name password : String) :
    Except String (PersonRecord × State) :=
  match s.fresh_id with
  | (id, s) =>
    match Map.lookup name s.names with
    | some _ => .error "assertion failed: !self.names.contains_key(name)"
    | none =>
      .ok ({ id := id, loc := INITIAL_LOC, name := name, salt := salt,
             password := hash_encoded password salt },
           { s with names := Map.insert name id s.names,
                    people := Map.insert id
                      { id := id, loc := INITIAL_LOC, name := name, salt := salt,
                        password := hash_encoded password salt } s.people })

/-- State::person_by_name (state.rs lines 115-121): the name-in-index but
record-missing case logs an error and yields None, as the code does. -/
def State.person_by_name (s : State) (name : String) : Option PersonRecord :=
  match Map.lookup name s.names with
  | none => none
  | some id => Map.lookup id s.people

/-- State::register_connection (state.rs lines 123-126): both maps are keyed
by the PersonId, so insertion replaces any existing binding for that id. -/
def State.register_connection (s : State) (id : PersonId) (conn : Connection)
    (tx : Queue) : State :=
  { s with peers := Map.insert id conn s.peers, queues := Map.insert id tx s.queues }

/-- State::unregister_connection (state.rs lines 128-135): removes both
bindings; a missing binding is only a logged warning. -/
def State.unregister_connection (s : State) (id : PersonId) : State :=
  { s with peers := Map.erase id s.peers, queues := Map.erase id s.queues }

/-- One iteration of roomcast's delivery loop (state.rs lines 186-200): look
up the occupant's queue (a miss is a logged warning, skip), send (a failed
send is a logged warning, skip). -/
def deliver (m : Message) (s : State) (p : Person) : State :=
  match Map.lookup p.id s.queues with
  | none => s
  | some q =>
    match q.send m with
    | .error _ => s
    | .ok q' => { s with queues := Map.insert p.id q' s.queues }

/-- State::roomcast (state.rs lines 173-201): resolve the room's occupant set
(a missing room is a logged error, abandoning the operation), then deliver to
each occupant's queue. -/
def State.roomcast (s : State) (loc : RoomId) (m : Message) : State :=
  match Map.lookup loc s.rooms with
  | none => s
  | some people => people.foldl (deliver m) s

/-- Loop body of State::broadcast (state.rs lines 167-169): send to every
registered queue, ignoring failures. -/
def sendAll (m : Message) : Map PersonId Queue → Map PersonId Queue
  | [] => []
  | (id, q) :: rest =>
      (id, match q.send m with | .ok q' => q' | .error _ => q) :: sendAll m rest

/-- State::broadcast (state.rs lines 164-170). -/
def State.broadcast (s : State) (m : Message) : State :=
  { s with queues := sendAll m s.queues }

/-- State::depart (state.rs lines 203-227): a missing room is a logged error
and the operation is abandoned; otherwise remove the person from their current
room's set and roomcast a Depart message to that room. -/
def State.depart (s : State) (p : Person) : State :=
  match Map.lookup p.loc s.rooms with
  | none => s
  | some people =>
    State.roomcast { s with rooms := Map.insert p.loc (setRemove p people) s.rooms }
      p.loc (.Depart p.id p.name p.loc)

/-- State::arrive (state.rs lines 229-248).  Room lookups go through room_mut
(state.rs lines 106-108), whose `.expect("room should exist")` is a panic: the
error case of the Except.  Returns the updated person (the `&mut Person`). -/
def State.arrive (s : State) (p : Person) (loc : RoomId) :
    Except String (State × Person) :=
  let step1 : Except String (State × Person) :=
    if p.loc ≠ loc then
      match Map.lookup p.loc s.rooms with
      | none => .error "room should exist"
      | some old_room =>
        .ok ({ s with rooms := Map.insert p.loc (setRemove p old_room) s.rooms },
             { p with loc := loc })
    else .ok (s, p)
  match step1 with
  | .error e => .error e
  | .ok (s, p) =>
    match Map.lookup loc s.rooms with
    | none => .error "room should exist"
    | some new_room =>
      .ok (State.roomcast { s with rooms := Map.insert loc (setInsert p new_room) s.rooms }
             loc (.Arrive p.id p.name loc), p)

/-- State::logout (state.rs lines 137-161): depart, then remove the peer entry
(an absent entry warns and returns early, leaving the queue), then remove the
queue.  The final `q.send(Message::Logout)` of lines 156-158 is not
representable: the staged Message enum has no Logout constructor (claim C8);
in any case the queue it would write to has just been dropped from the map. -/
def State.logout (s : State) (p : Person) : State :=
  match s.depart p with
  | s =>
    match Map.lookup p.id s.peers with
    | none => s
    | some _ =>
      match { s with peers := Map.erase p.id s.peers } with
      | s =>
        match Map.lookup p.id s.queues with
        | none => s
        | some _ => { s with queues := Map.erase p.id s.queues }

/-- The abort reasons of the TCP login protocol (lib.rs lines 236-303). -/
inductive LoginError where
  | aborted
  | tooManyPasswordAttempts
  | passwordsDontMatch
  deriving DecidableEq, Repr

/-- prompt (lib.rs lines 305-340) driven by a finite script of input lines:
send the prompt, read a line, trim it, return it if valid; otherwise count the
failure, consult check_tries, reprompt.  Reading past the end of the script is
the `_ => Err(timeout())` case (read failure / disconnect). -/
def prompt (valid : String → Bool) (check_tries : Nat → Option LoginError)
    (onReset : LoginError) : List String → Nat → Except LoginError String
  | [], _ => .error onReset
  | line :: rest, num_tries =>
    let line := trim line
    if valid line then .ok line
    else
      let num_tries := num_tries + 1
      match check_tries num_tries with
      | some e => .error e
      | none => prompt valid check_tries onReset rest num_tries

/-- The check_tries closure of the known-user password prompt
(lib.rs lines 373-382): abort after the 3rd failed attempt. -/
def passwordCheckTries (failed_tries : Nat) : Option LoginError :=
  if failed_tries ≥ 3 then some .tooManyPasswordAttempts else none

/-- The known-user password prompt of login (lib.rs lines 366-390): `valid` is
argon2 verification of the candidate against the stored record's hash. -/
def passwordPrompt (valid : String → Bool) (inputs : List String) :
    Except LoginError String :=
  prompt valid passwordCheckTries .aborted inputs 0


/-! ### Lemmas about the association-list map -/

theorem Map.lookup_insert_self (k : α) (v : β) (m : Map α β) :
    Map.lookup k (Map.insert k v m) = some v := by
  induction m with
  | nil => simp [Map.insert, Map.lookup]
  | cons hd tl ih =>
    obtain ⟨k', v'⟩ := hd
    by_cases h : k' = k
    · subst h; simp [Map.insert, Map.lookup]
    · simp [Map.insert, Map.lookup, h, ih]

theorem Map.lookup_insert_ne (k k' : α) (v : β) (m : Map α β) (h : k ≠ k') :
    Map.lookup k' (Map.insert k v m) = Map.lookup k' m := by
  induction m with
  | nil => simp [Map.insert, Map.lookup, h]
  | cons hd tl ih =>
    obtain ⟨k'', v''⟩ := hd
    by_cases hk : k'' = k
    · subst hk; simp [Map.insert, Map.lookup, h]
    · simp [Map.insert, Map.lookup, hk, ih]

theorem Map.lookup_eq_none_of_not_mem_keys (k : α) (m : Map α β)
    (h : k ∉ Map.keys m) : Map.lookup k m = none := by
  induction m with
  | nil => simp [Map.lookup]
  | cons hd tl ih =>
    obtain ⟨k', v'⟩ := hd
    simp only [Map.keys, List.map_cons, List.mem_cons] at h
    push_neg at h
    simp only [Map.lookup]
    rw [if_neg (Ne.symm h.1)]
    exact ih h.2

theorem Map.lookup_erase_self (k : α) (m : Map α β) (h : (Map.keys m).Nodup) :
    Map.lookup k (Map.erase k m) = none := by
  induction m with
  | nil => simp [Map.erase, Map.lookup]
  | cons hd tl ih =>
    obtain ⟨k', v'⟩ := hd
    simp only [Map.keys, List.map_cons, List.nodup_cons] at h
    by_cases hk : k' = k
    · subst hk
      simp only [Map.erase, if_pos rfl]
      exact Map.lookup_eq_none_of_not_mem_keys k' tl h.1
    · simp only [Map.erase, if_neg hk, Map.lookup, if_neg hk]
      exact ih h.2

theorem Map.keys_insert_of_mem (k : α) (v : β) (m : Map α β)
    (h : (Map.lookup k m).isSome) : Map.keys (Map.insert k v m) = Map.keys m := by
  induction m with
  | nil => simp [Map.lookup] at h
  | cons hd tl ih =>
    obtain ⟨k', v'⟩ := hd
    by_cases hk : k' = k
    · subst hk; simp [Map.insert, Map.keys]
    · simp only [Map.lookup, if_neg hk] at h
      simp [Map.insert, Map.keys, hk] at ih ⊢
      exact ih h

theorem Map.mem_insert (x : α × β) (k : α) (v : β) (m : Map α β)
    (hx : x ∈ Map.insert k v m) : x = (k, v) ∨ x ∈ m := by
  induction m with
  | nil =>
    simp only [Map.insert, List.mem_singleton] at hx
    exact Or.inl hx
  | cons hd tl ih =>
    obtain ⟨k', v'⟩ := hd
    by_cases hk : k' = k
    · subst hk
      rw [Map.insert, if_pos rfl, List.mem_cons] at hx
      rcases hx with hx | hx
      · exact Or.inl hx
      · exact Or.inr (List.mem_cons_of_mem _ hx)
    · rw [Map.insert, if_neg hk, List.mem_cons] at hx
      rcases hx with hx | hx
      · exact Or.inr (hx ▸ List.mem_cons_self _ _)
      · rcases ih hx with h' | h'
        · exact Or.inl h'
        · exact Or.inr (List.mem_cons_of_mem _ h')

theorem Map.lookup_mem (k : α) (v : β) (m : Map α β)
    (h : Map.lookup k m = some v) : (k, v) ∈ m := by
  induction m with
  | nil => simp [Map.lookup] at h
  | cons hd tl ih =>
    obtain ⟨k', v'⟩ := hd
    by_cases hk : k' = k
    · subst hk
      rw [Map.lookup, if_pos rfl, Option.some.injEq] at h
      exact h ▸ List.mem_cons_self _ _
    · rw [Map.lookup, if_neg hk] at h
      exact List.mem_cons_of_mem _ (ih h)

/-! ### Lemmas about the Person-set model -/

theorem mem_setInsert (q p : Person) (l : List Person) :
    q ∈ setInsert p l ↔ q ∈ l ∨ q = p := by
  unfold setInsert
  by_cases h : p ∈ l
  · simp only [if_pos h]
    constructor
    · exact Or.inl
    · rintro (hq | rfl)
      · exact hq
      · exact h
  · simp [if_neg h]

theorem mem_setRemove (q p : Person) (l : List Person) :
    q ∈ setRemove p l ↔ q ∈ l ∧ q ≠ p := by
  simp [setRemove, List.mem_filter]


/-! ### Frame lemmas: fan-out touches only queue contents -/

/-- Everything a fan-out call leaves untouched: every field but the queue
contents, and the queue map's key list. -/
def SameButQueues (s t : State) : Prop :=
  t.next_id = s.next_id ∧ t.people = s.people ∧ t.names = s.names ∧
  t.rooms = s.rooms ∧ t.peers = s.peers ∧ Map.keys t.queues = Map.keys s.queues

theorem sameButQueues_refl (s : State) : SameButQueues s s :=
  ⟨rfl, rfl, rfl, rfl, rfl, rfl⟩

theorem sameButQueues_trans {s t u : State} (h1 : SameButQueues s t)
    (h2 : SameButQueues t u) : SameButQueues s u := by
  obtain ⟨a1, b1, c1, d1, e1, f1⟩ := h1
  obtain ⟨a2, b2, c2, d2, e2, f2⟩ := h2
  exact ⟨a2.trans a1, b2.trans b1, c2.trans c1, d2.trans d1, e2.trans e1, f2.trans f1⟩

theorem deliver_sameButQueues (m : Message) (s : State) (p : Person) :
    SameButQueues s (deliver m s p) := by
  unfold deliver
  cases hq : Map.lookup p.id s.queues with
  | none => exact sameButQueues_refl s
  | some q =>
    dsimp only
    cases hs : q.send m with
    | error e => exact sameButQueues_refl s
    | ok q' =>
      dsimp only
      refine ⟨rfl, rfl, rfl, rfl, rfl, ?_⟩
      exact Map.keys_insert_of_mem p.id q' s.queues (by rw [hq]; rfl)

theorem foldl_deliver_sameButQueues (m : Message) (l : List Person) :
    ∀ s : State, SameButQueues s (l.foldl (deliver m) s) := by
  induction l with
  | nil => intro s; exact sameButQueues_refl s
  | cons hd tl ih =>
    intro s
    exact sameButQueues_trans (deliver_sameButQueues m s hd) (ih (deliver m s hd))

theorem roomcast_sameButQueues (s : State) (lc : RoomId) (m : Message) :
    SameButQueues s (s.roomcast lc m) := by
  unfold State.roomcast
  cases h : Map.lookup lc s.rooms with
  | none => exact sameButQueues_refl s
  | some people => exact foldl_deliver_sameButQueues m people s

theorem keys_sendAll (m : Message) (qs : Map PersonId Queue) :
    Map.keys (sendAll m qs) = Map.keys qs := by
  induction qs with
  | nil => rfl
  | cons hd tl ih =>
    obtain ⟨id, q⟩ := hd
    simp only [sendAll, Map.keys, List.map_cons] at ih ⊢
    rw [ih]

theorem broadcast_sameButQueues (s : State) (m : Message) :
    SameButQueues s (s.broadcast m) :=
  ⟨rfl, rfl, rfl, rfl, rfl, keys_sendAll m s.queues⟩

/-! ### Delivery lemmas -/

theorem lookup_sendAll (m : Message) (qs : Map PersonId Queue) (id : PersonId) :
    Map.lookup id (sendAll m qs) =
      (Map.lookup id qs).map fun q =>
        match q.send m with | .ok q' => q' | .error _ => q := by
  induction qs with
  | nil => rfl
  | cons hd tl ih =>
    obtain ⟨k, q⟩ := hd
    by_cases hk : k = id
    · subst hk; simp [sendAll, Map.lookup]
    · simp only [sendAll, Map.lookup, if_neg hk]
      exact ih

theorem foldl_deliver_lookup_notin (m : Message) (l : List Person) :
    ∀ (s : State) (id : PersonId), (∀ r ∈ l, r.id ≠ id) →
      Map.lookup id (l.foldl (deliver m) s).queues = Map.lookup id s.queues := by
  induction l with
  | nil => intro s id _; rfl
  | cons hd tl ih =>
    intro s id h
    have hh : hd.id ≠ id := h hd (List.mem_cons_self _ _)
    have ht : ∀ r ∈ tl, r.id ≠ id := fun r hr => h r (List.mem_cons_of_mem _ hr)
    have step : Map.lookup id (deliver m s hd).queues = Map.lookup id s.queues := by
      unfold deliver
      cases hq : Map.lookup hd.id s.queues with
      | none => rfl
      | some q =>
        dsimp only
        cases hs : q.send m with
        | error e => rfl
        | ok q' => exact Map.lookup_insert_ne hd.id id q' s.queues hh
    calc Map.lookup id ((hd :: tl).foldl (deliver m) s).queues
        = Map.lookup id (tl.foldl (deliver m) (deliver m s hd)).queues := rfl
      _ = Map.lookup id (deliver m s hd).queues := ih (deliver m s hd) id ht
      _ = Map.lookup id s.queues := step

theorem foldl_deliver_lookup_mem (m : Message) (l : List Person) :
    ∀ (s : State) (p : Person) (q : Queue),
      (l.map Person.id).Nodup → p ∈ l → Map.lookup p.id s.queues = some q →
      q.live = true →
      Map.lookup p.id (l.foldl (deliver m) s).queues
        = some { q with msgs := q.msgs ++ [m] } := by
  induction l with
  | nil => intro s p q _ hp _ _; cases hp
  | cons hd tl ih =>
    intro s p q hnd hp hq hlive
    rw [List.map_cons, List.nodup_cons] at hnd
    rcases List.mem_cons.mp hp with rfl | hp'
    · have hdel : deliver m s p =
          { s with queues := Map.insert p.id { q with msgs := q.msgs ++ [m] } s.queues } := by
        unfold deliver
        rw [hq]
        dsimp only
        unfold Queue.send
        rw [if_pos hlive]
      have hnotin : ∀ r ∈ tl, r.id ≠ p.id := by
        intro r hr heq
        exact hnd.1 (heq ▸ List.mem_map_of_mem Person.id hr)
      calc Map.lookup p.id ((p :: tl).foldl (deliver m) s).queues
          = Map.lookup p.id (tl.foldl (deliver m) (deliver m s p)).queues := rfl
        _ = Map.lookup p.id (deliver m s p).queues :=
            foldl_deliver_lookup_notin m tl (deliver m s p) p.id hnotin
        _ = some { q with msgs := q.msgs ++ [m] } := by
            rw [hdel]
            exact Map.lookup_insert_self p.id _ s.queues
    · have hne : hd.id ≠ p.id := by
        intro heq
        exact hnd.1 (heq ▸ List.mem_map_of_mem Person.id hp')
      have step : Map.lookup p.id (deliver m s hd).queues = some q := by
        unfold deliver
        cases hq0 : Map.lookup hd.id s.queues with
        | none => exact hq
        | some q0 =>
          dsimp only
          cases hs : q0.send m with
          | error e => exact hq
          | ok q' => exact (Map.lookup_insert_ne hd.id p.id q' s.queues hne).trans hq
      exact ih (deliver m s hd) p q hnd.2 hp' step hlive


/-! ### Reachable states of the live system -/

/-- The occupant set of a room (empty for a missing room id). -/
def roomOcc (s : State) (R : RoomId) : List Person :=
  (Map.lookup R s.rooms).getD []

/-- A world: the shared store plus the live Person sessions currently held by
the per-connection tasks (lib.rs `process`, lines 439-499). -/
structure World where
  st : State
  sessions : List Person
  deriving DecidableEq, Repr

/-- The world at server start. -/
def initWorld : World := { st := State.new, sessions := [] }

/-- Registration login path, then session start (lib.rs lines 394-434 and
448-457): new_person, register the connection with a fresh queue, arrive into
the person's room; the arrived session joins the live set. -/
def connectNew (w : World) (salt name pw : String) (conn : Connection) :
    Except String World :=
  match w.st.new_person salt name pw with
  | .error e => .error e
  | .ok (rec, s1) =>
    match (s1.register_connection rec.id conn Queue.fresh).arrive
        (Person.new rec conn) (Person.new rec conn).loc with
    | .error e => .error e
    | .ok (s3, p') => .ok { st := s3, sessions := p' :: w.sessions }

/-- Known-user login path, then session start (lib.rs lines 362-393 and
448-457): look the record up by name, register the connection with a fresh
queue, arrive. -/
def connectKnown (w : World) (name : String) (conn : Connection) :
    Except String World :=
  match w.st.person_by_name name with
  | none => .error "unknown user"
  | some rec =>
    match (w.st.register_connection rec.id conn Queue.fresh).arrive
        (Person.new rec conn) (Person.new rec conn).loc with
    | .error e => .error e
    | .ok (s3, p') => .ok { st := s3, sessions := p' :: w.sessions }

/-- The transitions the session protocol drives against the world store:
logging in (two live TCP connections never share a peer address, whence the
freshness hypothesis on `conn`), speaking (Command::Say → roomcast), logging
out (Command::Logout → State::logout, after which the session loop closes on
seeing the terminal message) and disconnecting (lib.rs lines 486-494:
unregister_connection then depart). -/
inductive Step : World → World → Prop where
  | login_new {w w' : World} (salt name pw : String) (conn : Connection)
      (hconn : ∀ q ∈ w.sessions, q.conn ≠ conn)
      (h : connectNew w salt name pw conn = .ok w') : Step w w'
  | login_known {w w' : World} (name : String) (conn : Connection)
      (hconn : ∀ q ∈ w.sessions, q.conn ≠ conn)
      (h : connectKnown w name conn = .ok w') : Step w w'
  | say {w : World} (p : Person) (text : String) (hp : p ∈ w.sessions) :
      Step w { st := w.st.roomcast p.loc (.Say p.id p.name p.loc text),
               sessions := w.sessions }
  | logout {w : World} (p : Person) (hp : p ∈ w.sessions) :
      Step w { st := w.st.logout p, sessions := w.sessions.erase p }
  | disconnect {w : World} (p : Person) (hp : p ∈ w.sessions) :
      Step w { st := (w.st.unregister_connection p.id).depart p,
               sessions := w.sessions.erase p }

/-- Reachability from server start. -/
def Reachable (w : World) : Prop := Relation.ReflTransGen Step initWorld w

/-- The inductive invariant: only the initial room exists, the room's occupant
set holds exactly the live sessions, every live session is located in the
initial room, distinct sessions run on distinct connections, and every stored
record still points at the initial room. -/
structure Inv (w : World) : Prop where
  rooms_other : ∀ R, R ≠ INITIAL_LOC → Map.lookup R w.st.rooms = none
  rooms_init : ∃ occ, Map.lookup INITIAL_LOC w.st.rooms = some occ
  occ_mem : ∀ p, p ∈ roomOcc w.st INITIAL_LOC ↔ p ∈ w.sessions
  sess_loc : ∀ p ∈ w.sessions, p.loc = INITIAL_LOC
  sess_conns : w.sessions.Pairwise fun p q => p.conn ≠ q.conn
  people_loc : ∀ e ∈ w.st.people, (Prod.snd e).loc = INITIAL_LOC

theorem Inv.sessions_nodup {w : World} (h : Inv w) : w.sessions.Nodup :=
  h.sess_conns.imp fun hc hpq => hc (congrArg Person.conn hpq)

theorem inv_init : Inv initWorld := by
  refine ⟨?_, ⟨[], ?_⟩, ?_, ?_, ?_, ?_⟩
  · intro R hR
    simp only [initWorld, State.new, Map.lookup]
    rw [if_neg (fun e => hR e.symm)]
  · rfl
  · intro p
    simp [initWorld, roomOcc, State.new, Map.lookup]
  · intro p hp
    cases hp
  · exact List.Pairwise.nil
  · intro e he
    cases he

/-- Characterization of a successful registration. -/
theorem new_person_ok {s : State} {salt name pw : String} {rec : PersonRecord}
    {s1 : State} (h : s.new_person salt name pw = .ok (rec, s1)) :
    Map.lookup name s.names = none ∧
    rec = { id := s.next_id, loc := INITIAL_LOC, name := name, salt := salt,
            password := hash_encoded pw salt } ∧
    s1 = { s with next_id := s.next_id + 1,
                  names := Map.insert name s.next_id s.names,
                  people := Map.insert s.next_id
                    { id := s.next_id, loc := INITIAL_LOC, name := name,
                      salt := salt, password := hash_encoded pw salt } s.people } := by
  unfold State.new_person State.fresh_id at h
  dsimp only at h
  cases hl : Map.lookup name s.names with
  | some v => rw [hl] at h; cases h
  | none =>
    rw [hl] at h
    dsimp only at h
    simp only [Except.ok.injEq, Prod.mk.injEq] at h
    exact ⟨rfl, h.1.symm, h.2.symm⟩

/-- A record found by name is one of the stored records. -/
theorem person_by_name_mem {s : State} {name : String} {rec : PersonRecord}
    (h : s.person_by_name name = some rec) : ∃ id, (id, rec) ∈ s.people := by
  unfold State.person_by_name at h
  cases hn : Map.lookup name s.names with
  | none => rw [hn] at h; cases h
  | some id =>
    rw [hn] at h
    dsimp only at h
    exact ⟨id, Map.lookup_mem _ _ _ h⟩

/-- Arrival into the room one is already in: re-announce (the idempotent
arrival of the spec) after inserting into the occupant set. -/
theorem arrive_same_loc {s : State} {p : Person} {occ : List Person}
    (h : Map.lookup p.loc s.rooms = some occ) :
    s.arrive p p.loc = .ok
      (State.roomcast { s with rooms := Map.insert p.loc (setInsert p occ) s.rooms }
         p.loc (.Arrive p.id p.name p.loc), p) := by
  unfold State.arrive
  dsimp only
  rw [if_neg (not_not_intro rfl)]
  dsimp only
  rw [h]

/-- Departure with the room present. -/
theorem depart_eq {s : State} {p : Person} {occ : List Person}
    (h : Map.lookup p.loc s.rooms = some occ) :
    s.depart p = State.roomcast
      { s with rooms := Map.insert p.loc (setRemove p occ) s.rooms }
      p.loc (.Depart p.id p.name p.loc) := by
  unfold State.depart
  rw [h]

/-- Departure with the room missing: the operation is abandoned. -/
theorem depart_missing {s : State} {p : Person}
    (h : Map.lookup p.loc s.rooms = none) : s.depart p = s := by
  unfold State.depart
  rw [h]

/-- logout only erases connection bookkeeping beyond depart. -/
theorem logout_rooms_people (s : State) (p : Person) :
    (s.logout p).rooms = (s.depart p).rooms ∧
    (s.logout p).people = (s.depart p).people := by
  unfold State.logout
  dsimp only
  cases h1 : Map.lookup p.id (s.depart p).peers with
  | none => exact ⟨rfl, rfl⟩
  | some c =>
    dsimp only
    cases h2 : Map.lookup p.id (s.depart p).queues with
    | none => exact ⟨rfl, rfl⟩
    | some q => exact ⟨rfl, rfl⟩

/-- The invariant survives a state change that keeps rooms, records and the
session list. -/
theorem inv_of_same {w : World} (hInv : Inv w) (t : State)
    (hr : t.rooms = w.st.rooms) (hpe : t.people = w.st.people) :
    Inv { st := t, sessions := w.sessions } := by
  refine ⟨?_, ?_, ?_, hInv.sess_loc, hInv.sess_conns, ?_⟩
  · intro R hR
    rw [show ({ st := t, sessions := w.sessions } : World).st.rooms = t.rooms from rfl, hr]
    exact hInv.rooms_other R hR
  · obtain ⟨occ, hocc⟩ := hInv.rooms_init
    exact ⟨occ, by rw [show ({ st := t, sessions := w.sessions } : World).st.rooms = t.rooms from rfl, hr]; exact hocc⟩
  · intro p
    unfold roomOcc
    rw [show ({ st := t, sessions := w.sessions } : World).st.rooms = t.rooms from rfl, hr]
    exact hInv.occ_mem p
  · intro e he
    exact hInv.people_loc e (by rwa [show ({ st := t, sessions := w.sessions } : World).st.people = t.people from rfl, hpe] at he)

/-- The invariant survives adding a freshly arrived session. -/
theorem inv_extend {w : World} (hInv : Inv w) (sBase : State) (person : Person)
    (s3 : State) (p' : Person)
    (hrooms : sBase.rooms = w.st.rooms)
    (hpeople : ∀ e ∈ sBase.people, (Prod.snd e).loc = INITIAL_LOC)
    (hloc : person.loc = INITIAL_LOC)
    (hconn : ∀ q ∈ w.sessions, q.conn ≠ person.conn)
    (harr : sBase.arrive person person.loc = .ok (s3, p')) :
    Inv { st := s3, sessions := p' :: w.sessions } := by
  obtain ⟨occ, hocc⟩ := hInv.rooms_init
  have hlook : Map.lookup person.loc sBase.rooms = some occ := by
    rw [hrooms, hloc]; exact hocc
  rw [arrive_same_loc hlook] at harr
  simp only [Except.ok.injEq, Prod.mk.injEq] at harr
  obtain ⟨hs3, hp'⟩ := harr
  subst hs3
  subst hp'
  have fr := roomcast_sameButQueues
    { sBase with rooms := Map.insert person.loc (setInsert person occ) sBase.rooms }
    person.loc (Message.Arrive person.id person.name person.loc)
  have hr3 : (State.roomcast
      { sBase with rooms := Map.insert person.loc (setInsert person occ) sBase.rooms }
      person.loc (Message.Arrive person.id person.name person.loc)).rooms
      = Map.insert INITIAL_LOC (setInsert person occ) w.st.rooms := by
    refine fr.2.2.2.1.trans ?_
    dsimp only
    rw [hrooms, hloc]
  have hp3 : (State.roomcast
      { sBase with rooms := Map.insert person.loc (setInsert person occ) sBase.rooms }
      person.loc (Message.Arrive person.id person.name person.loc)).people
      = sBase.people := fr.2.1
  refine ⟨?_, ?_, ?_, ?_, ?_, ?_⟩
  · intro R hR
    dsimp only
    rw [hr3, Map.lookup_insert_ne _ _ _ _ (fun e => hR e.symm)]
    exact hInv.rooms_other R hR
  · refine ⟨setInsert person occ, ?_⟩
    dsimp only
    rw [hr3]
    exact Map.lookup_insert_self _ _ _
  · intro q
    unfold roomOcc
    dsimp only
    rw [hr3, Map.lookup_insert_self]
    show q ∈ setInsert person occ ↔ _
    rw [mem_setInsert]
    have hq : q ∈ occ ↔ q ∈ w.sessions := by
      have hx := hInv.occ_mem q
      unfold roomOcc at hx
      rw [hocc] at hx
      exact hx
    rw [hq, List.mem_cons, or_comm]
  · intro q hq
    rcases List.mem_cons.mp hq with rfl | hq'
    · exact hloc
    · exact hInv.sess_loc q hq'
  · exact List.pairwise_cons.mpr
      ⟨fun q hq e => hconn q hq e.symm, hInv.sess_conns⟩
  · intro e he
    dsimp only at he
    rw [hp3] at he
    exact hpeople e he

/-- The invariant survives removing a departed session. -/
theorem inv_erase {w : World} (hInv : Inv w) (p : Person) (hp : p ∈ w.sessions)
    (t : State) (occ : List Person)
    (hocc : Map.lookup INITIAL_LOC w.st.rooms = some occ)
    (hr : t.rooms = Map.insert INITIAL_LOC (setRemove p occ) w.st.rooms)
    (hpe : t.people = w.st.people) :
    Inv { st := t, sessions := w.sessions.erase p } := by
  refine ⟨?_, ?_, ?_, ?_, ?_, ?_⟩
  · intro R hR
    dsimp only
    rw [hr, Map.lookup_insert_ne _ _ _ _ (fun e => hR e.symm)]
    exact hInv.rooms_other R hR
  · refine ⟨setRemove p occ, ?_⟩
    dsimp only
    rw [hr]
    exact Map.lookup_insert_self _ _ _
  · intro q
    unfold roomOcc
    dsimp only
    rw [hr, Map.lookup_insert_self]
    show q ∈ setRemove p occ ↔ _
    rw [mem_setRemove]
    have hq : q ∈ occ ↔ q ∈ w.sessions := by
      have hx := hInv.occ_mem q
      unfold roomOcc at hx
      rw [hocc] at hx
      exact hx
    rw [hq]
    constructor
    · rintro ⟨hqs, hqp⟩
      exact (List.Nodup.mem_erase_iff hInv.sessions_nodup).mpr ⟨hqp, hqs⟩
    · intro hqe
      have hx := (List.Nodup.mem_erase_iff hInv.sessions_nodup).mp hqe
      exact ⟨hx.2, hx.1⟩
  · intro q hq
    exact hInv.sess_loc q (List.mem_of_mem_erase hq)
  · exact hInv.sess_conns.sublist (List.erase_sublist p w.sessions)
  · intro e he
    dsimp only at he
    rw [hpe] at he
    exact hInv.people_loc e he

/-- Every protocol step preserves the invariant. -/
theorem step_inv {w w' : World} (hs : Step w w') (hInv : Inv w) : Inv w' := by
  cases hs with
  | login_new salt name pw conn hconn h =>
    unfold connectNew at h
    cases hnp : w.st.new_person salt name pw with
    | error e => rw [hnp] at h; cases h
    | ok rs =>
      obtain ⟨rec, s1⟩ := rs
      rw [hnp] at h
      dsimp only at h
      obtain ⟨hname, hrec, hs1⟩ := new_person_ok hnp
      cases harr : (s1.register_connection rec.id conn Queue.fresh).arrive
          (Person.new rec conn) (Person.new rec conn).loc with
      | error e => rw [harr] at h; cases h
      | ok sp =>
        obtain ⟨s3, p'⟩ := sp
        rw [harr] at h
        dsimp only at h
        simp only [Except.ok.injEq] at h
        subst h
        refine inv_extend hInv (s1.register_connection rec.id conn Queue.fresh)
          (Person.new rec conn) s3 p' ?_ ?_ ?_ ?_ harr
        · show s1.rooms = w.st.rooms
          rw [hs1]
        · intro e he
          have he' : e ∈ Map.insert w.st.next_id
              { id := w.st.next_id, loc := INITIAL_LOC, name := name,
                salt := salt, password := hash_encoded pw salt } w.st.people := by
            have hx : s1.people = Map.insert w.st.next_id
                { id := w.st.next_id, loc := INITIAL_LOC, name := name,
                  salt := salt, password := hash_encoded pw salt } w.st.people := by
              rw [hs1]
            rwa [show (s1.register_connection rec.id conn Queue.fresh).people = s1.people from rfl, hx] at he
          rcases Map.mem_insert e _ _ _ he' with rfl | hmem
          · rfl
          · exact hInv.people_loc e hmem
        · show (Person.new rec conn).loc = INITIAL_LOC
          rw [show (Person.new rec conn).loc = rec.loc from rfl, hrec]
        · intro q hq
          exact hconn q hq
  | login_known name conn hconn h =>
    unfold connectKnown at h
    cases hpb : w.st.person_by_name name with
    | none => rw [hpb] at h; cases h
    | some rec =>
      rw [hpb] at h
      dsimp only at h
      obtain ⟨id0, hmem⟩ := person_by_name_mem hpb
      have hrecloc : rec.loc = INITIAL_LOC := hInv.people_loc (id0, rec) hmem
      cases harr : (w.st.register_connection rec.id conn Queue.fresh).arrive
          (Person.new rec conn) (Person.new rec conn).loc with
      | error e => rw [harr] at h; cases h
      | ok sp =>
        obtain ⟨s3, p'⟩ := sp
        rw [harr] at h
        dsimp only at h
        simp only [Except.ok.injEq] at h
        subst h
        refine inv_extend hInv (w.st.register_connection rec.id conn Queue.fresh)
          (Person.new rec conn) s3 p' rfl ?_ hrecloc ?_ harr
        · intro e he
          exact hInv.people_loc e he
        · intro q hq
          exact hconn q hq
  | say p text hp =>
    have fr := roomcast_sameButQueues w.st p.loc (Message.Say p.id p.name p.loc text)
    exact inv_of_same hInv _ fr.2.2.2.1 fr.2.1
  | logout p hp =>
    have hploc := hInv.sess_loc p hp
    obtain ⟨occ, hocc⟩ := hInv.rooms_init
    have hlook : Map.lookup p.loc w.st.rooms = some occ := by
      rw [hploc]; exact hocc
    have hd := depart_eq hlook
    have fr := roomcast_sameButQueues
      { w.st with rooms := Map.insert p.loc (setRemove p occ) w.st.rooms }
      p.loc (Message.Depart p.id p.name p.loc)
    have hdr : (w.st.depart p).rooms
        = Map.insert INITIAL_LOC (setRemove p occ) w.st.rooms := by
      rw [hd]
      refine fr.2.2.2.1.trans ?_
      dsimp only
      rw [hploc]
    have hdp : (w.st.depart p).people = w.st.people := by
      rw [hd]
      exact fr.2.1
    have hl := logout_rooms_people w.st p
    exact inv_erase hInv p hp (w.st.logout p) occ hocc
      (hl.1.trans hdr) (hl.2.trans hdp)
  | disconnect p hp =>
    have hploc := hInv.sess_loc p hp
    obtain ⟨occ, hocc⟩ := hInv.rooms_init
    have hlook : Map.lookup p.loc (w.st.unregister_connection p.id).rooms
        = some occ := by
      rw [show (w.st.unregister_connection p.id).rooms = w.st.rooms from rfl, hploc]
      exact hocc
    have hd := depart_eq hlook
    have fr := roomcast_sameButQueues
      { w.st.unregister_connection p.id with
          rooms := Map.insert p.loc (setRemove p occ) (w.st.unregister_connection p.id).rooms }
      p.loc (Message.Depart p.id p.name p.loc)
    have hdr : ((w.st.unregister_connection p.id).depart p).rooms
        = Map.insert INITIAL_LOC (setRemove p occ) w.st.rooms := by
      rw [hd]
      refine fr.2.2.2.1.trans ?_
      dsimp only
      rw [hploc]
      rfl
    have hdp : ((w.st.unregister_connection p.id).depart p).people = w.st.people := by
      rw [hd]
      exact fr.2.1
    exact inv_erase hInv p hp ((w.st.unregister_connection p.id).depart p) occ hocc hdr hdp

/-- Every reachable world satisfies the invariant. -/
theorem reachable_inv {w : World} (h : Reachable w) : Inv w := by
  unfold Reachable at h
  induction h with
  | refl => exact inv_init
  | tail h1 h2 ih => exact step_inv h2 ih


/-! ### Claim theorems -/

/-- C2: render suppresses Arrive/Depart for the subject themselves (empty
string) and otherwise produces the non-empty "<name> arrived." / "<name>
left."; Say renders as "You say, disQUOTEtextQUOTE" for the speaker and as the
speaker's name followed by " says, " and the quoted text for everyone else; in
both Say cases the full equality shows the string ends with the text and a
closing single quote. -/
theorem c2_render_self_suppression
    (id receiver sp receiver2 : PersonId) (name sname text : String) (lc : RoomId)
    (h1 : receiver ≠ id) (h2 : receiver2 ≠ sp) :
    (Message.Arrive id name lc).render id = "" ∧
    (Message.Depart id name lc).render id = "" ∧
    (Message.Arrive id name lc).render receiver = name ++ " arrived." ∧
    (Message.Arrive id name lc).render receiver ≠ "" ∧
    (Message.Depart id name lc).render receiver = name ++ " left." ∧
    (Message.Depart id name lc).render receiver ≠ "" ∧
    (Message.Say sp sname lc text).render sp = "You say, " ++ "'" ++ text ++ "'" ∧
    (Message.Say sp sname lc text).render receiver2
      = sname ++ " says, " ++ "'" ++ text ++ "'" := by
  have hne : ∀ tail : String, 0 < tail.length → name ++ tail ≠ "" := by
    intro tail htail h
    have hlen := congrArg String.length h
    rw [String.length_append, show ("" : String).length = 0 from rfl] at hlen
    omega
  refine ⟨?_, ?_, ?_, ?_, ?_, ?_, ?_, ?_⟩
  · unfold Message.render; dsimp only; rw [if_pos rfl]
  · unfold Message.render; dsimp only; rw [if_pos rfl]
  · unfold Message.render; dsimp only; rw [if_neg (fun e => h1 e.symm)]
  · unfold Message.render; dsimp only; rw [if_neg (fun e => h1 e.symm)]
    exact hne " arrived." (by decide)
  · unfold Message.render; dsimp only; rw [if_neg (fun e => h1 e.symm)]
  · unfold Message.render; dsimp only; rw [if_neg (fun e => h1 e.symm)]
    exact hne " left." (by decide)
  · unfold Message.render; dsimp only; rw [if_pos rfl]
  · unfold Message.render; dsimp only; rw [if_neg (fun e => h2 e.symm)]

/-- Witness for C2 at ids 1 and 2. -/
theorem c2_witness :
    (Message.Arrive 1 "@a" 0).render 1 = "" ∧
    (Message.Depart 1 "@a" 0).render 1 = "" ∧
    (Message.Arrive 1 "@a" 0).render 2 = "@a" ++ " arrived." ∧
    (Message.Arrive 1 "@a" 0).render 2 ≠ "" ∧
    (Message.Depart 1 "@a" 0).render 2 = "@a" ++ " left." ∧
    (Message.Depart 1 "@a" 0).render 2 ≠ "" ∧
    (Message.Say 1 "@a" 0 "hi").render 1 = "You say, " ++ "'" ++ "hi" ++ "'" ∧
    (Message.Say 1 "@a" 0 "hi").render 2 = "@a" ++ " says, " ++ "'" ++ "hi" ++ "'" :=
  c2_render_self_suppression 1 2 1 2 "@a" "@a" "hi" 0 (by decide) (by decide)

/-- C3: Command::parse is total (always Ok); the exact trimmed lines
"shutdown" and "logout" parse to Shutdown and Logout, and anything else,
including the empty line, becomes Say of the trimmed line. -/
theorem c3_parse_total (s t u : String)
    (ht : trim t = "shutdown") (hu : trim u = "logout")
    (hs1 : trim s ≠ "shutdown") (hs2 : trim s ≠ "logout") :
    Command.parse t = .ok .Shutdown ∧
    Command.parse u = .ok .Logout ∧
    Command.parse s = .ok (.Say (trim s)) ∧
    (∀ v : String, ∃ c, Command.parse v = .ok c) ∧
    Command.parse "  hello there  " = .ok (.Say "hello there") ∧
    Command.parse "" = .ok (.Say "") := by
  refine ⟨?_, ?_, ?_, ?_, by rfl, by rfl⟩
  · simp [Command.parse, ht]
  · simp [Command.parse, hu]
  · simp [Command.parse, hs1, hs2]
  · intro v
    unfold Command.parse
    dsimp only
    split
    · exact ⟨.Shutdown, rfl⟩
    · split
      · exact ⟨.Logout, rfl⟩
      · exact ⟨.Say (trim v), rfl⟩

/-- Witness for C3 on the spec's own examples. -/
theorem c3_witness :
    Command.parse "shutdown" = .ok .Shutdown ∧
    Command.parse " logout " = .ok .Logout ∧
    Command.parse "  hello there  " = .ok (.Say (trim "  hello there  ")) ∧
    (∀ v : String, ∃ c, Command.parse v = .ok c) ∧
    Command.parse "  hello there  " = .ok (.Say "hello there") ∧
    Command.parse "" = .ok (.Say "") :=
  c3_parse_total "  hello there  " "shutdown" " logout "
    (by rfl) (by rfl) (by decide) (by decide)

/-- C8: the staged Message enum (message.rs lines 6-23) has no Logout variant,
so no message renders as the spec's fixed logout text, although state.rs line
157 (State::logout) and lib.rs line 471 (the session loop's terminal-frame
check) both name `Message::Logout`: render can never produce
"You have logged out." for any message and receiver. -/
theorem c8_no_logout_message (m : Message) (receiver : PersonId) :
    m.render receiver ≠ "You have logged out." := by
  cases m with
  | Arrive id name lc =>
    unfold Message.render
    dsimp only
    by_cases hid : id = receiver
    · rw [if_pos hid]; decide
    · rw [if_neg hid]
      intro h
      have hdata := congrArg String.data h
      rw [String.data_append] at hdata
      exact absurd ⟨name.data, hdata⟩
        (by decide : ¬ (" arrived.".data <:+ "You have logged out.".data))
  | Depart id name lc =>
    unfold Message.render
    dsimp only
    by_cases hid : id = receiver
    · rw [if_pos hid]; decide
    · rw [if_neg hid]
      intro h
      have hdata := congrArg String.data h
      rw [String.data_append] at hdata
      exact absurd ⟨name.data, hdata⟩
        (by decide : ¬ (" left.".data <:+ "You have logged out.".data))
  | Say sp sname lc text =>
    unfold Message.render
    dsimp only
    by_cases hsp : sp = receiver
    · rw [if_pos hsp]
      intro h
      apply (by decide : ¬ ((',' : Char) ∈ "You have logged out.".data))
      rw [← h]
      simp only [String.data_append, List.mem_append]
      exact Or.inl (Or.inl (Or.inl (by decide)))
    · rw [if_neg hsp]
      intro h
      apply (by decide : ¬ ((',' : Char) ∈ "You have logged out.".data))
      rw [← h]
      simp only [String.data_append, List.mem_append]
      exact Or.inl (Or.inl (Or.inl (Or.inr (by decide))))

/-- C10: roomcast and broadcast are pure fan-out: they leave next_id, people,
names, rooms and peers untouched and preserve the key list of the queue map,
changing only queue contents. -/
theorem c10_fanout_frame (s : State) (lc : RoomId) (m m2 : Message) :
    (s.roomcast lc m).next_id = s.next_id ∧
    (s.roomcast lc m).people = s.people ∧
    (s.roomcast lc m).names = s.names ∧
    (s.roomcast lc m).rooms = s.rooms ∧
    (s.roomcast lc m).peers = s.peers ∧
    Map.keys (s.roomcast lc m).queues = Map.keys s.queues ∧
    (s.broadcast m2).next_id = s.next_id ∧
    (s.broadcast m2).people = s.people ∧
    (s.broadcast m2).names = s.names ∧
    (s.broadcast m2).rooms = s.rooms ∧
    (s.broadcast m2).peers = s.peers ∧
    Map.keys (s.broadcast m2).queues = Map.keys s.queues := by
  have h1 := roomcast_sameButQueues s lc m
  have h2 := broadcast_sameButQueues s m2
  exact ⟨h1.1, h1.2.1, h1.2.2.1, h1.2.2.2.1, h1.2.2.2.2.1, h1.2.2.2.2.2,
         h2.1, h2.2.1, h2.2.2.1, h2.2.2.2.1, h2.2.2.2.2.1, h2.2.2.2.2.2⟩


/-- C4: roomcast resolves delivery through the room's membership set: an
occupant with a live registered queue receives the message (regardless of
failures at other occupants' queues — nothing at all is assumed about them),
an id owned by no occupant keeps its queue untouched, and broadcast appends
the message to every registered queue whose receiver is still alive. -/
theorem c4_roomcast_broadcast (s : State) (lc : RoomId) (m : Message)
    (occ : List Person) (p : Person) (q : Queue)
    (idOut idAny : PersonId) (qAny : Queue)
    (hlook : Map.lookup lc s.rooms = some occ)
    (hnodup : (occ.map Person.id).Nodup)
    (hp : p ∈ occ)
    (hq : Map.lookup p.id s.queues = some q)
    (hlive : q.live = true)
    (hout : ∀ r ∈ occ, r.id ≠ idOut)
    (hqa : Map.lookup idAny s.queues = some qAny) :
    Map.lookup p.id (s.roomcast lc m).queues = some { q with msgs := q.msgs ++ [m] } ∧
    Map.lookup idOut (s.roomcast lc m).queues = Map.lookup idOut s.queues ∧
    Map.lookup idAny (s.broadcast m).queues =
      some (if qAny.live then { qAny with msgs := qAny.msgs ++ [m] } else qAny) := by
  refine ⟨?_, ?_, ?_⟩
  · unfold State.roomcast
    rw [hlook]
    exact foldl_deliver_lookup_mem m occ s p q hnodup hp hq hlive
  · unfold State.roomcast
    rw [hlook]
    exact foldl_deliver_lookup_notin m occ s idOut hout
  · show Map.lookup idAny (sendAll m s.queues) = _
    rw [lookup_sendAll, hqa]
    by_cases hl : qAny.live = true <;> simp [Queue.send, hl]

/-- Witness for C4: a room with three occupants — one live queue, one dead
queue, one with no queue at all — plus a bystander queue outside the room.
The live occupant still receives despite both failures. -/
theorem c4_witness :
    Map.lookup (1 : PersonId)
        (({ next_id := 5, people := [], names := [],
            rooms := [(0, [{ id := 1, name := "@a", loc := 0, conn := Connection.TCP "a" },
                            { id := 2, name := "@b", loc := 0, conn := Connection.TCP "b" },
                            { id := 3, name := "@c", loc := 0, conn := Connection.TCP "c" }])],
            peers := [],
            queues := [(1, { live := true, msgs := [] }),
                       (2, { live := false, msgs := [] }),
                       (4, { live := true, msgs := [] })] } : State).roomcast 0
          (Message.Say 1 "@a" 0 "hi")).queues
      = some { live := true, msgs := [] ++ [Message.Say 1 "@a" 0 "hi"] } ∧
    Map.lookup (4 : PersonId)
        (({ next_id := 5, people := [], names := [],
            rooms := [(0, [{ id := 1, name := "@a", loc := 0, conn := Connection.TCP "a" },
                            { id := 2, name := "@b", loc := 0, conn := Connection.TCP "b" },
                            { id := 3, name := "@c", loc := 0, conn := Connection.TCP "c" }])],
            peers := [],
            queues := [(1, { live := true, msgs := [] }),
                       (2, { live := false, msgs := [] }),
                       (4, { live := true, msgs := [] })] } : State).roomcast 0
          (Message.Say 1 "@a" 0 "hi")).queues
      = Map.lookup (4 : PersonId)
          ({ next_id := 5, people := [], names := [],
             rooms := [(0, [{ id := 1, name := "@a", loc := 0, conn := Connection.TCP "a" },
                             { id := 2, name := "@b", loc := 0, conn := Connection.TCP "b" },
                             { id := 3, name := "@c", loc := 0, conn := Connection.TCP "c" }])],
             peers := [],
             queues := [(1, { live := true, msgs := [] }),
                        (2, { live := false, msgs := [] }),
                        (4, { live := true, msgs := [] })] } : State).queues ∧
    Map.lookup (2 : PersonId)
        (({ next_id := 5, people := [], names := [],
            rooms := [(0, [{ id := 1, name := "@a", loc := 0, conn := Connection.TCP "a" },
                            { id := 2, name := "@b", loc := 0, conn := Connection.TCP "b" },
                            { id := 3, name := "@c", loc := 0, conn := Connection.TCP "c" }])],
            peers := [],
            queues := [(1, { live := true, msgs := [] }),
                       (2, { live := false, msgs := [] }),
                       (4, { live := true, msgs := [] })] } : State).broadcast
          (Message.Say 1 "@a" 0 "hi")).queues
      = some (if ({ live := false, msgs := [] } : Queue).live
              then { ({ live := false, msgs := [] } : Queue) with
                       msgs := ({ live := false, msgs := [] } : Queue).msgs ++ [Message.Say 1 "@a" 0 "hi"] }
              else { live := false, msgs := [] }) :=
  c4_roomcast_broadcast _ 0 (Message.Say 1 "@a" 0 "hi")
    [{ id := 1, name := "@a", loc := 0, conn := Connection.TCP "a" },
     { id := 2, name := "@b", loc := 0, conn := Connection.TCP "b" },
     { id := 3, name := "@c", loc := 0, conn := Connection.TCP "c" }]
    { id := 1, name := "@a", loc := 0, conn := Connection.TCP "a" }
    { live := true, msgs := [] } 4 2 { live := false, msgs := [] }
    (by rfl) (by decide) (by decide) (by rfl) (by rfl) (by decide) (by rfl)

/-- The password prompt accepts a valid line as long as fewer than three
failures have accumulated. -/
theorem prompt_ok_of_few_failures (valid : String → Bool) (c : String)
    (rest : List String) (pre : List String) :
    ∀ n : Nat, (∀ l ∈ pre, valid (trim l) = false) →
      n + pre.length ≤ 2 → valid (trim c) = true →
      prompt valid passwordCheckTries .aborted (pre ++ c :: rest) n = .ok (trim c) := by
  induction pre with
  | nil =>
    intro n _ _ hc
    show prompt valid passwordCheckTries .aborted (c :: rest) n = .ok (trim c)
    unfold prompt
    dsimp only
    rw [hc]
    simp
  | cons a pre ih =>
    intro n hpre hlen hc
    have ha : valid (trim a) = false := hpre a (List.mem_cons_self _ _)
    have hlen' : n + 1 + pre.length ≤ 2 := by
      simp only [List.length_cons] at hlen
      omega
    show prompt valid passwordCheckTries .aborted (a :: (pre ++ c :: rest)) n = .ok (trim c)
    unfold prompt
    dsimp only
    rw [ha]
    simp only [Bool.false_eq_true, if_false]
    have hck : passwordCheckTries (n + 1) = none := by
      unfold passwordCheckTries
      rw [if_neg (by omega)]
    rw [hck]
    exact ih (n + 1) (fun l hl => hpre l (List.mem_cons_of_mem _ hl)) hlen' hc

/-- C5: at the known-user password prompt, three consecutive wrong passwords
abort with the too-many-attempts error exactly on the third failure — whatever
lines follow, no fourth attempt is read — while any correct password entered
while fewer than three failures have accumulated (in particular right after
the second failure) completes the prompt. -/
theorem c5_password_retry_cap (valid : String → Bool) (l1 l2 l3 c : String)
    (rest rest2 : List String) (pre : List String)
    (h1 : valid (trim l1) = false) (h2 : valid (trim l2) = false)
    (h3 : valid (trim l3) = false)
    (hpre : ∀ l ∈ pre, valid (trim l) = false) (hlen : pre.length ≤ 2)
    (hc : valid (trim c) = true) :
    passwordPrompt valid (l1 :: l2 :: l3 :: rest) = .error .tooManyPasswordAttempts ∧
    passwordPrompt valid (pre ++ c :: rest2) = .ok (trim c) := by
  constructor
  · unfold passwordPrompt
    unfold prompt
    dsimp only
    rw [h1]
    simp only [Bool.false_eq_true, if_false]
    rw [show passwordCheckTries (0 + 1) = none from rfl]
    unfold prompt
    dsimp only
    rw [h2]
    simp only [Bool.false_eq_true, if_false]
    rw [show passwordCheckTries (0 + 1 + 1) = none from rfl]
    unfold prompt
    dsimp only
    rw [h3]
    simp only [Bool.false_eq_true, if_false]
    rw [show passwordCheckTries (0 + 1 + 1 + 1)
          = some LoginError.tooManyPasswordAttempts from rfl]
  · exact prompt_ok_of_few_failures valid c rest2 pre 0 hpre (by omega) hc

/-- Witness for C5: three wrong passwords abort even though a correct fourth
line is waiting; two wrong passwords then the correct one (with surrounding
blanks trimmed) log in. -/
theorem c5_witness :
    passwordPrompt (fun s => s == "hunter22") ["a", "b", "c", "hunter22"]
      = .error .tooManyPasswordAttempts ∧
    passwordPrompt (fun s => s == "hunter22") (["x", "y"] ++ " hunter22 " :: [])
      = .ok (trim " hunter22 ") :=
  c5_password_retry_cap (fun s => s == "hunter22") "a" "b" "c" " hunter22 "
    ["hunter22"] [] ["x", "y"]
    (by decide) (by decide) (by decide) (by decide) (by decide) (by decide)

/-- C6 counterexample: arrive on a room id absent from the rooms table (here
room 1, while only the initial room exists) reaches room_mut's
`.expect("room should exist")`, i.e. a panic — modelled as the error of the
Except — so the missing-room miss in arrive is not a logged-and-abandoned
operation. -/
theorem c6_counterexample :
    State.new.arrive
        { id := 0, name := "@a", loc := INITIAL_LOC, conn := Connection.TCP "peer" } 1
      = .error "room should exist" := by rfl

/-- C6 amended: depart and roomcast treat a missing room id as a logged
internal-consistency error and abandon only that operation, leaving the state
unchanged; arrive, however, looks rooms up through room_mut, whose expect
panics whenever the target room id is absent. -/
theorem c6_missing_room (s : State) (p : Person) (lc : RoomId) (m : Message)
    (hm : Map.lookup lc s.rooms = none) (hp : Map.lookup p.loc s.rooms = none) :
    s.roomcast lc m = s ∧ s.depart p = s ∧
    s.arrive p lc = .error "room should exist" := by
  refine ⟨?_, depart_missing hp, ?_⟩
  · unfold State.roomcast
    rw [hm]
  · unfold State.arrive
    dsimp only
    by_cases hploc : p.loc = lc
    · rw [if_neg (not_not_intro hploc), hploc] at *
      dsimp only
      rw [hm]
    · rw [if_pos hploc, hp]

/-- Witness for C6 at rooms 1 and 2, both absent from the fresh store. -/
theorem c6_witness :
    State.new.roomcast 1 (Message.Arrive 0 "@a" 1) = State.new ∧
    State.new.depart { id := 0, name := "@a", loc := 2, conn := Connection.TCP "peer" }
      = State.new ∧
    State.new.arrive { id := 0, name := "@a", loc := 2, conn := Connection.TCP "peer" } 1
      = .error "room should exist" :=
  c6_missing_room State.new
    { id := 0, name := "@a", loc := 2, conn := Connection.TCP "peer" }
    1 (Message.Arrive 0 "@a" 1) (by rfl) (by rfl)

/-- A sequence of registrations run back to back, failing as a whole if any
single new_person call panics. -/
def runRegs : State → List (String × String × String) →
    Except String (List PersonRecord × State)
  | s, [] => .ok ([], s)
  | s, (salt, name, pw) :: rest =>
    match s.new_person salt name pw with
    | .error e => .error e
    | .ok (r, s1) =>
      match runRegs s1 rest with
      | .error e => .error e
      | .ok (rs, s2) => .ok (r :: rs, s2)

/-- Induction core for C7: ids are bounded below by the starting counter and
strictly increase along the list; existing name bindings survive; every
produced record's name is indexed to its id in the final state. -/
theorem runRegs_spec (regs : List (String × String × String)) :
    ∀ (s : State) (rs : List PersonRecord) (s2 : State),
      runRegs s regs = .ok (rs, s2) →
      (∀ r ∈ rs, s.next_id ≤ r.id) ∧
      List.Pairwise (fun a b => a.id < b.id) rs ∧
      (∀ k v, Map.lookup k s.names = some v → Map.lookup k s2.names = some v) ∧
      (∀ r ∈ rs, Map.lookup r.name s2.names = some r.id) := by
  induction regs with
  | nil =>
    intro s rs s2 h
    unfold runRegs at h
    simp only [Except.ok.injEq, Prod.mk.injEq] at h
    obtain ⟨h1, h2⟩ := h
    subst h1
    subst h2
    exact ⟨fun r hr => absurd hr (List.not_mem_nil r), List.Pairwise.nil,
           fun k v hk => hk, fun r hr => absurd hr (List.not_mem_nil r)⟩
  | cons reg rest ih =>
    intro s rs s2 h
    obtain ⟨salt, name, pw⟩ := reg
    unfold runRegs at h
    cases hnp : s.new_person salt name pw with
    | error e => rw [hnp] at h; cases h
    | ok rs1 =>
      obtain ⟨r, s1⟩ := rs1
      rw [hnp] at h
      dsimp only at h
      cases hrr : runRegs s1 rest with
      | error e => rw [hrr] at h; cases h
      | ok out =>
        obtain ⟨rs', s2'⟩ := out
        rw [hrr] at h
        dsimp only at h
        simp only [Except.ok.injEq, Prod.mk.injEq] at h
        obtain ⟨hrs, hs2⟩ := h
        subst hrs
        subst hs2
        obtain ⟨hname, hrec, hs1⟩ := new_person_ok hnp
        obtain ⟨ihlb, ihpw, ihmono, ihnames⟩ := ih s1 rs' s2' hrr
        have hs1_next : s1.next_id = s.next_id + 1 := by rw [hs1]
        have hrid : r.id = s.next_id := by rw [hrec]
        refine ⟨?_, ?_, ?_, ?_⟩
        · intro r' hr'
          rcases List.mem_cons.mp hr' with rfl | hmem
          · exact le_of_eq hrid.symm
          · have hb := ihlb r' hmem
            rw [hs1_next] at hb
            exact Nat.le_of_succ_le hb
        · refine List.pairwise_cons.mpr ⟨?_, ihpw⟩
          intro b hb
          have hbb := ihlb b hb
          rw [hs1_next] at hbb
          rw [hrid]
          exact hbb
        · intro k v hk
          apply ihmono
          rw [hs1]
          dsimp only
          by_cases hkn : name = k
          · subst hkn
            rw [hname] at hk
            cases hk
          · rw [Map.lookup_insert_ne name k _ _ hkn]
            exact hk
        · intro r' hr'
          rcases List.mem_cons.mp hr' with rfl | hmem
          · apply ihmono
            rw [hs1, hrec]
            dsimp only
            exact Map.lookup_insert_self name s.next_id s.names
          · exact ihnames r' hmem

/-- C7: any sequence of successful registrations from the fresh store assigns
strictly increasing — hence pairwise distinct — ids, and the final name index
maps each registered name to exactly its record's id. -/
theorem c7_registration_ids (regs : List (String × String × String))
    (rs : List PersonRecord) (s2 : State)
    (h : runRegs State.new regs = .ok (rs, s2)) :
    List.Pairwise (fun a b => a.id < b.id) rs ∧
    (rs.map PersonRecord.id).Nodup ∧
    (∀ r ∈ rs, Map.lookup r.name s2.names = some r.id) := by
  obtain ⟨_, hpw, _, hnames⟩ := runRegs_spec regs State.new rs s2 h
  refine ⟨hpw, ?_, hnames⟩
  exact List.pairwise_map.mpr (hpw.imp fun hlt => Nat.ne_of_lt hlt)

/-- Two concrete registrations for the C7 witness. -/
def demoRegs : List (String × String × String) :=
  [("S1", "@a", "aaaaaaaa"), ("S2", "@b", "bbbbbbbb")]

/-- The records and final state the C7 witness registrations produce. -/
def demoRegsOut : List PersonRecord × State :=
  match runRegs State.new demoRegs with
  | .ok out => out
  | .error _ => ([], State.new)

/-- Witness for C7 on two concrete registrations. -/
theorem c7_witness :
    List.Pairwise (fun a b => a.id < b.id) demoRegsOut.1 ∧
    (demoRegsOut.1.map PersonRecord.id).Nodup ∧
    (∀ r ∈ demoRegsOut.1, Map.lookup r.name demoRegsOut.2.names = some r.id) :=
  c7_registration_ids demoRegs demoRegsOut.1 demoRegsOut.2 (by rfl)

/-- C9 counterexample: register_connection keys both tables by the person id,
so registering a second connection (a different peer address) for id 7
replaces the first: afterwards exactly one binding remains and it is the
second connection — the first connection is no longer registered at all. -/
theorem c9_counterexample :
    ((State.new.register_connection 7 (Connection.TCP "addrA")
        { live := true, msgs := [] }).register_connection
        7 (Connection.TCP "addrB") { live := true, msgs := [] }).peers
      = [(7, Connection.TCP "addrB")] ∧
    ((State.new.register_connection 7 (Connection.TCP "addrA")
        { live := true, msgs := [] }).register_connection
        7 (Connection.TCP "addrB") { live := true, msgs := [] }).queues
      = [(7, { live := true, msgs := [] })] ∧
    Connection.TCP "addrA" ≠ Connection.TCP "addrB" :=
  ⟨by rfl, by rfl, by decide⟩

/-- C9 amended: each identity has at most one registered connection: a second
register_connection for an id replaces that id's connection and queue, and
unregister_connection removes the id's single binding from both maps
unconditionally. -/
theorem c9_one_connection_per_id (s : State) (id : PersonId)
    (c1 c2 : Connection) (q1 q2 : Queue)
    (hp : (Map.keys s.peers).Nodup) (hq : (Map.keys s.queues).Nodup) :
    Map.lookup id ((s.register_connection id c1 q1).register_connection id c2 q2).peers
      = some c2 ∧
    Map.lookup id ((s.register_connection id c1 q1).register_connection id c2 q2).queues
      = some q2 ∧
    Map.lookup id (s.unregister_connection id).peers = none ∧
    Map.lookup id (s.unregister_connection id).queues = none := by
  refine ⟨?_, ?_, ?_, ?_⟩
  · exact Map.lookup_insert_self id c2 _
  · exact Map.lookup_insert_self id q2 _
  · exact Map.lookup_erase_self id s.peers hp
  · exact Map.lookup_erase_self id s.queues hq

/-- Witness for C9 on the fresh store. -/
theorem c9_witness :
    Map.lookup (7 : PersonId)
        ((State.new.register_connection 7 (Connection.TCP "a") Queue.fresh).register_connection
          7 (Connection.TCP "b") Queue.fresh).peers = some (Connection.TCP "b") ∧
    Map.lookup (7 : PersonId)
        ((State.new.register_connection 7 (Connection.TCP "a") Queue.fresh).register_connection
          7 (Connection.TCP "b") Queue.fresh).queues = some Queue.fresh ∧
    Map.lookup (7 : PersonId) (State.new.unregister_connection 7).peers = none ∧
    Map.lookup (7 : PersonId) (State.new.unregister_connection 7).queues = none :=
  c9_one_connection_per_id State.new 7 (Connection.TCP "a") (Connection.TCP "b")
    Queue.fresh Queue.fresh (by decide) (by decide)


/-- C1: in every reachable world, a live Person session is in the presence set
of room R exactly when its current room id field (`loc`) equals R.  Arrive and
depart are among the generating transitions (login performs arrive; logout and
disconnect perform depart), so the equivalence holds again after every such
call. -/
theorem c1_room_membership (w : World) (hw : Reachable w)
    (p : Person) (hp : p ∈ w.sessions) (R : RoomId) :
    p ∈ roomOcc w.st R ↔ p.loc = R := by
  have hInv := reachable_inv hw
  by_cases hR : R = INITIAL_LOC
  · subst hR
    rw [hInv.occ_mem p]
    exact ⟨fun _ => hInv.sess_loc p hp, fun _ => hp⟩
  · have hnone := hInv.rooms_other R hR
    unfold roomOcc
    rw [hnone]
    constructor
    · intro hmem
      exact absurd hmem (List.not_mem_nil p)
    · intro he
      exact absurd (he.symm.trans (hInv.sess_loc p hp)) hR

/-- Demo connection for the C1 witness. -/
def demoConn : Connection := .TCP "127.0.0.1:49152"

/-- The world after one registration login on the fresh server. -/
def demoWorld : World :=
  match connectNew initWorld "SALT" "@a" "aaaaaaaa" demoConn with
  | .ok w => w
  | .error _ => initWorld

/-- The session the demo login creates. -/
def demoPerson : Person :=
  { id := 0, name := "@a", loc := INITIAL_LOC, conn := demoConn }

/-- Witness for C1: the demo world is reachable in one login step and its one
session satisfies the membership equivalence at the initial room. -/
theorem c1_witness :
    demoPerson ∈ roomOcc demoWorld.st INITIAL_LOC ↔ demoPerson.loc = INITIAL_LOC :=
  c1_room_membership demoWorld
    (Relation.ReflTransGen.single
      (Step.login_new "SALT" "@a" "aaaaaaaa" demoConn
        (fun q hq => absurd hq (List.not_mem_nil q)) (by rfl)))
    demoPerson (by decide) INITIAL_LOC

end Much
